import Mathlib

/-!
Shallow embedding of the core routines of the Email-Automation repository
(src/routes/hubspotRoute.js, src/routes/cloner.js, src/unnamed/part_000)
together with proofs about the chunking, pagination, upload, allocation,
cloning and scheduling behaviour described in the specification.

Remote HTTP calls are modelled by explicit response oracles (a list of
responses consumed in request order, or a per-name response function);
timers, logging and the HTTP routing layer are dropped.  hubspotRoute.js
contains two near-identical variants of the route file: functions from the
second variant carry a 2 suffix.  cloner.js and src/unnamed/part_000 are
likewise two variants of the email-cloner route file; the cloner.js
versions carry a V1 suffix where the two differ.
-/

namespace EmailAutomation

set_option maxRecDepth 100000

/-! ## Basic helpers shared by the route files -/

/-- monthNames (hubspotRoute.js line 29).  These are also the en-GB short
month names produced by the cloner after its Sept-to-Sep replacement. -/
def monthNames : List String :=
  ["Jan", "Feb", "Mar", "Apr", "May", "Jun", "Jul", "Aug", "Sep", "Oct", "Nov", "Dec"]

/-- Spread of a JS Set built from a list, as in the final
new Set(allContacts) of getContactsFromList: keeps the first occurrence of
every element, preserving insertion order.  The fuel argument makes the
recursion structural; it is at least the list length at every call. -/
def jsDedupGo : Nat → List Nat → List Nat
  | 0, _ => []
  | _, [] => []
  | fuel + 1, x :: xs => x :: jsDedupGo fuel (xs.filter (fun y => decide (y ≠ x)))

/-- First-occurrence deduplication of a list of contact ids. -/
def jsDedup (l : List Nat) : List Nat := jsDedupGo l.length l

/-- One iteration bound for chunkArray (hubspotRoute.js lines 55-59): the JS
for-loop advances the index by size per chunk, so with a positive size it
runs at most length times; the fuel cuts off the non-terminating size = 0
case, which the source never exercises. -/
def chunkGo (size : Nat) : Nat → List α → List (List α)
  | 0, _ => []
  | _, [] => []
  | fuel + 1, a :: arr => (a :: arr).take size :: chunkGo size fuel ((a :: arr).drop size)

/-- chunkArray (hubspotRoute.js lines 55-59): fixed-size slicing. -/
def chunkArray (arr : List α) (size : Nat) : List (List α) := chunkGo size arr.length arr

/-- One size tier of progressiveChunks (hubspotRoute.js lines 61-73): the
inner while loop.  A chunk is the slice from index to index + size; an empty
chunk (only possible when size = 0) breaks the loop, otherwise the index
advances by size.  The fuel bounds the iterations; arr.length + 1 is always
enough because the index grows by at least one per emitted chunk. -/
def tierGo (arr : List α) (size : Nat) : Nat → Nat → List (List α) × Nat
  | 0, index => ([], index)
  | fuel + 1, index =>
    if index < arr.length then
      let chunk := (arr.drop index).take size
      if chunk.isEmpty then ([], index)
      else
        let rest := tierGo arr size fuel (index + size)
        (chunk :: rest.1, rest.2)
    else ([], index)

/-- One tier of progressiveChunks starting at a given index, returning the
chunks it emitted and the index where it stopped. -/
def tierChunks (arr : List α) (size index : Nat) : List (List α) × Nat :=
  tierGo arr size (arr.length + 1) index

/-- progressiveChunks (hubspotRoute.js lines 61-73): the size tiers run in
order over one shared index. -/
def progressiveChunks (arr : List α) (sizes : List Nat) : List (List α) :=
  (sizes.foldl
    (fun acc size =>
      let t := tierChunks arr size acc.2
      (acc.1 ++ t.1, t.2))
    (([] : List (List α)), 0)).1

/-- The default size schedule of progressiveChunks. -/
def defaultSizes : List Nat := [300, 100, 50, 1]

/-! ## Paginated contact fetch (getContactsFromList) -/

/-- MAX_RETRIES (hubspotRoute.js line 21, default 3). -/
def MAX_RETRIES : Nat := 3

/-- RETRIEVAL_BATCH_SIZE (hubspotRoute.js line 20, default 1000).  It only
shapes the count parameter sent with each page request, which the response
oracle absorbs, so no modelled behaviour depends on it. -/
def RETRIEVAL_BATCH_SIZE : Nat := 1000

/-- One answer of the remote list-membership API as observed by
getContactsFromList: either a page (the member vids plus the has-more flag;
the vid-offset cursor is absorbed into the oracle ordering) or a failed
request. -/
inductive PageResp where
  | page (vids : List Nat) (hasMore : Bool)
  | fail (msg : String)
deriving DecidableEq

/-- The retry loop of getContactsFromList (hubspotRoute.js lines 75-144).
The while condition (has-more, and fewer contacts than maxCount) is encoded
by the entry check and by recursing only when the page said has-more; a page
appends its vids, resets the consecutive-error counter, and truncates and
stops once maxCount is reached; an error bumps the counter and, at
MAX_RETRIES, either returns the partial list (when something was collected)
or throws carrying the last error message (when nothing was; the JS message
also interpolates the list id, which the model drops).  The response stream
stands for the remote API; an exhausted stream ends the loop with the data
gathered so far. -/
def fetchGo (maxCount : Nat) : List PageResp → List Nat → Nat → Except String (List Nat)
  | [], acc, _ => .ok (jsDedup acc)
  | r :: rest, acc, consecutiveErrors =>
    if maxCount ≤ acc.length then .ok (jsDedup acc)
    else
      match r with
      | .page vids hasMore =>
        let acc' := acc ++ vids
        if maxCount ≤ acc'.length then .ok (jsDedup (acc'.take maxCount))
        else if hasMore then fetchGo maxCount rest acc' 0
        else .ok (jsDedup acc')
      | .fail msg =>
        if 0 < acc.length ∧ MAX_RETRIES ≤ consecutiveErrors + 1 then .ok (jsDedup acc)
        else if acc.length = 0 ∧ MAX_RETRIES ≤ consecutiveErrors + 1 then
          .error ("Unable to fetch contacts from list: " ++ msg)
        else fetchGo maxCount rest acc (consecutiveErrors + 1)

/-- getContactsFromList, first variant (hubspotRoute.js lines 75-144). -/
def getContactsFromList (stream : List PageResp) (maxCount : Nat) :
    Except String (List Nat) :=
  fetchGo maxCount stream [] 0

/-- The second route-file variant of getContactsFromList (hubspotRoute.js
lines 839-875): the while condition also requires retryCount below
MAX_RETRIES; an error bumps retryCount and, once the limit is hit, clears
has-more so the loop simply ends and the (possibly empty) partial list is
returned.  No path throws, so every branch is ok; the Except result type
only records that the JS function could have thrown. -/
def fetchGo2 (maxCount : Nat) : List PageResp → List Nat → Nat → Except String (List Nat)
  | [], acc, _ => .ok (jsDedup acc)
  | r :: rest, acc, retryCount =>
    if maxCount ≤ acc.length ∨ MAX_RETRIES ≤ retryCount then .ok (jsDedup acc)
    else
      match r with
      | .page vids hasMore =>
        let acc' := acc ++ vids
        if maxCount ≤ acc'.length then .ok (jsDedup (acc'.take maxCount))
        else if hasMore then fetchGo2 maxCount rest acc' 0
        else .ok (jsDedup acc')
      | .fail _ =>
        if retryCount + 1 < MAX_RETRIES then fetchGo2 maxCount rest acc (retryCount + 1)
        else .ok (jsDedup acc)

/-- getContactsFromList, second variant (hubspotRoute.js lines 839-875). -/
def getContactsFromList2 (stream : List PageResp) (maxCount : Nat) :
    Except String (List Nat) :=
  fetchGo2 maxCount stream [] 0

/-- Every page response in the stream reports has-more. -/
def allMorePages : List PageResp → Bool
  | [] => true
  | .page _ hasMore :: rest => hasMore && allMorePages rest
  | .fail _ :: rest => allMorePages rest

/-- Every maximal run of consecutive errors in the stream stays below the
retry limit, starting from a current consecutive-error count; this is what
never errors terminally means for the fetch loop. -/
def errRunsBelow (limit : Nat) : List PageResp → Nat → Bool
  | [], _ => true
  | .page _ _ :: rest, _ => errRunsBelow limit rest 0
  | .fail _ :: rest, k => decide (k + 1 < limit) && errRunsBelow limit rest (k + 1)

/-- All vids carried by the stream, in page order. -/
def concatVids : List PageResp → List Nat
  | [] => []
  | .page vids _ :: rest => vids ++ concatVids rest
  | .fail _ :: rest => concatVids rest

/-! ## Chunked upload (addContactsToList) -/

/-- The per-chunk retry loop of addContactsToList (hubspotRoute.js lines
172-201): attempts are numbered from 0 and the loop stops at the first
success or after MAX_RETRIES attempts.  The transport argument gives the
outcome of each attempt. -/
def tryGo (attempt : Nat → Bool) : Nat → Nat → Bool
  | _, 0 => false
  | r, fuel + 1 => attempt r || tryGo attempt (r + 1) fuel

/-- Whether a chunk upload eventually succeeds within MAX_RETRIES attempts. -/
def tryChunk (transport : Nat → Nat → Bool) (chunkIndex : Nat) : Bool :=
  tryGo (transport chunkIndex) 0 MAX_RETRIES

/-- The chunk loop of addContactsToList (hubspotRoute.js lines 171-202),
carrying the chunk index: a chunk that succeeds adds its length to
successCount, a chunk that exhausts its retries is appended to failedChunks,
and in both cases the loop continues with the next chunk. -/
def uploadChunks (transport : Nat → Nat → Bool) : List (List Nat) → Nat → Nat × List (List Nat)
  | [], _ => (0, [])
  | chunk :: rest, i =>
    let r := uploadChunks transport rest (i + 1)
    if tryChunk transport i then (chunk.length + r.1, r.2)
    else (r.1, chunk :: r.2)

/-- addContactsToList, first variant (hubspotRoute.js lines 161-211).  The
internal counters successCount and failedChunks become the result so that
the partial-failure bookkeeping is observable (the JS function only logs
them and returns undefined); an empty contact list returns immediately. -/
def addContactsToList1 (transport : Nat → Nat → Bool) (contacts : List Nat) :
    Nat × List (List Nat) :=
  if contacts.isEmpty then (0, [])
  else uploadChunks transport (progressiveChunks contacts defaultSizes) 0

/-- The chunk loop of the second route-file variant of addContactsToList
(hubspotRoute.js lines 892-908): one attempt per chunk, and a failed attempt
is rethrown, aborting the remaining chunks. -/
def addChunks2 (transport : Nat → Bool) : List (List Nat) → Nat → Except String Unit
  | [], _ => .ok ()
  | _ :: rest, i =>
    if transport i then addChunks2 transport rest (i + 1)
    else .error ("Failed to add contacts to list")

/-- addContactsToList, second variant (hubspotRoute.js lines 892-908). -/
def addContactsToList2 (transport : Nat → Bool) (contacts : List Nat) :
    Except String Unit :=
  addChunks2 transport (progressiveChunks contacts defaultSizes) 0

/-! ## Campaign allocation (processSingleCampaign) -/

/-- JS arr.slice(0, end) where end may be negative or zero: the campaign
count field is never validated, so all integers are representable. -/
def jsSliceTo (l : List α) (e : Int) : List α :=
  if 0 ≤ e then l.take e.toNat else l.take (l.length - min l.length (-e).toNat)

/-- usedContactsSet.add for every selected vid (hubspotRoute.js line 308);
the JS Set is modelled as the insertion-ordered list of its elements. -/
def addAllToUsed (used : List Nat) (selected : List Nat) : List Nat :=
  selected.foldl (fun u v => if decide (v ∈ u) then u else u ++ [v]) used

/-- The contact-selection core of processSingleCampaign (hubspotRoute.js
lines 248-310, and identically lines 945-972 of the second variant):
the primary fetch result is filtered against the used set; when it falls
short of the requested count and a secondary list is configured, the
secondary fetch result is filtered the same way; the two are concatenated
primary-first, cut to the requested count, and the selection is added to the
used set.  The fetched lists are oracle inputs standing for the
getContactsFromList calls. -/
def selectContacts (primaryFetched secondaryFetched : List Nat)
    (hasSecondary : Bool) (count : Int) (used : List Nat) : List Nat × List Nat :=
  let primary := primaryFetched.filter (fun v => decide (v ∉ used))
  let secondary :=
    if (primary.length : Int) < count ∧ hasSecondary = true then
      secondaryFetched.filter (fun v => decide (v ∉ used))
    else []
  let selected := jsSliceTo (primary ++ secondary) count
  (selected, addAllToUsed used selected)

/-- Math.round for the finite values produced here: round half toward
positive infinity.  The JS computation runs in binary floating point; the
claims only exercise values where float and exact arithmetic agree, so the
model uses exact rationals. -/
def jsRound (q : ℚ) : Int := Int.floor (q + 1 / 2)

/-- fulfillmentPercentage of processSingleCampaign, first variant
(hubspotRoute.js line 310): guarded so that a non-positive count yields 0. -/
def fulfillmentPercentage1 (selectedCount : Nat) (count : Int) : Int :=
  if 0 < count then jsRound ((selectedCount : ℚ) * 100 / (count : ℚ)) else 0

/-- fulfillmentPercentage of the second route-file variant (hubspotRoute.js
line 974): no guard, so count = 0 divides zero by zero, which in JS is NaN
(modelled as none); any other count gives a numeric value. -/
def fulfillmentPercentage2 (selectedCount : Nat) (count : Int) : Option Int :=
  if count = 0 then none
  else some (jsRound ((selectedCount : ℚ) * 100 / (count : ℚ)))

/-! ## Email cloning: date arithmetic and destination names -/

/-- The character class of the \w regex atom: letters, digits, underscore. -/
def isWordChar (c : Char) : Bool := c.isAlphanum || c = '_'

/-- Whether a character list starts with the shape of the date pattern of
cloner.js line 102 (two digits, space, three word characters, space, four
digits). -/
def dateShape (cs : List Char) : Bool :=
  match cs.take 11 with
  | [d1, d2, s1, w1, w2, w3, s2, y1, y2, y3, y4] =>
    d1.isDigit && d2.isDigit && (s1 == ' ') && isWordChar w1 && isWordChar w2
      && isWordChar w3 && (s2 == ' ') && y1.isDigit && y2.isDigit && y3.isDigit
      && y4.isDigit
  | _ => false

/-- Leftmost match of the date pattern, as originalEmailName.match(pattern)
finds it: the split into the text before the match, the 11 matched
characters, and the text after. -/
def findDate : List Char → Option (List Char × List Char × List Char)
  | [] => none
  | c :: cs =>
    if dateShape (c :: cs) then some ([], (c :: cs).take 11, (c :: cs).drop 11)
    else
      match findDate cs with
      | some (pre, mid, post) => some (c :: pre, mid, post)
      | none => none

/-- Numeric value of a decimal digit character. -/
def digitVal (c : Char) : Nat := c.toNat - 48

/-- Gregorian leap-year rule, as used by the JS Date type. -/
def isLeap (y : Nat) : Bool := y % 4 == 0 && (y % 100 != 0 || y % 400 == 0)

/-- Days in a month (month index 0-based, matching monthNames). -/
def daysInMonth (y m : Nat) : Nat :=
  if m = 1 then (if isLeap y then 29 else 28)
  else if m = 3 ∨ m = 5 ∨ m = 8 ∨ m = 10 then 30
  else 31

/-- Parse of a matched DD MMM YYYY substring by new Date(...), yielding
year, 0-based month index and day.  A month word that is not a month name
or a day outside the month is an Invalid Date in JS, modelled as none. -/
def parseDateChars (cs : List Char) : Option (Nat × Nat × Nat) :=
  match cs with
  | [d1, d2, _, w1, w2, w3, _, y1, y2, y3, y4] =>
    let day := 10 * digitVal d1 + digitVal d2
    let year := 1000 * digitVal y1 + 100 * digitVal y2 + 10 * digitVal y3 + digitVal y4
    match monthNames.findIdx? (fun t => t == String.mk [w1, w2, w3]) with
    | some m => if 1 ≤ day ∧ day ≤ daysInMonth year m then some (year, m, day) else none
    | none => none
  | _ => none

/-- Day-of-month normalisation performed by clonedDate.setDate(d + offset):
an overflowing day rolls into the following months and years.  The fuel is
the (possibly overflowing) day value itself; every step removes at least 28
days, so it suffices. -/
def normDateGo : Nat → Nat → Nat → Nat → Nat × Nat × Nat
  | 0, y, m, d => (y, m, d)
  | fuel + 1, y, m, d =>
    if d ≤ daysInMonth y m then (y, m, d)
    else if 11 ≤ m then normDateGo fuel (y + 1) 0 (d - 31)
    else normDateGo fuel y (m + 1) (d - daysInMonth y m)

/-- The calendar date reached from day d of month m of year y after adding
offset days (cloner.js lines 113-114). -/
def addDays (y m d offset : Nat) : Nat × Nat × Nat :=
  normDateGo (d + offset) y m (d + offset)

/-- Two-digit zero padding of the day, as the en-GB 2-digit day format. -/
def pad2 (n : Nat) : String := if n < 10 then ("0" ++ toString n) else toString n

/-- Fallback for an out-of-range month lookup. -/
def emptyString : String := ""

/-- Short month name for a 0-based month index. -/
def monthName (m : Nat) : String := monthNames.getD m emptyString

/-- The DD MMM YYYY rendering of a date produced by
toLocaleDateString en-GB (day 2-digit, month short, year numeric) followed
by the comma removal and the Sept-to-Sep replacement of cloner.js
lines 117-124. -/
def fmtDate (y m d : Nat) : String :=
  pad2 d ++ " " ++ monthName m ++ " " ++ toString y

/-- Destination-name derivation of cloneAndScheduleEmail (cloner.js lines
102-126, and identically src/unnamed/part_000 lines 446-463): locate the
leftmost DD MMM YYYY substring of the source name, add the day offset to
that date, format it identically and substitute it in place; a name without
the pattern yields none (the pair is skipped).  A matched substring that JS
would treat as an Invalid Date renders as the Invalid Date text. -/
def cloneName (name : String) (dayOffset : Nat) : Option String :=
  match findDate name.data with
  | none => none
  | some (pre, mid, post) =>
    let newDate :=
      match parseDateChars mid with
      | some (y, m, d) =>
        let r := addDays y m d dayOffset
        fmtDate r.1 r.2.1 r.2.2
      | none => "Invalid Date"
    some (String.mk pre ++ newDate ++ String.mk post)

/-- The candidate-name generation loop of the batch EmailCloner
(src/unnamed/part_000 lines 446-477) for one day offset: a source name with
a date pattern contributes its destination name to emailNamesToCheck, a
source name without one bumps the error counter and contributes nothing. -/
def genCandidates (names : List String) (offset : Nat) : List String × Nat :=
  names.foldl
    (fun acc n =>
      match cloneName n offset with
      | some newName => (acc.1 ++ [newName], acc.2)
      | none => (acc.1, acc.2 + 1))
    ([], 0)

/-! ## Email cloning: the sequential cloner.js pipeline -/

/-- The outcome fields of a cloneAndScheduleEmail result that the cloner.js
EmailCloner stat loop inspects (success, then skipped, else error). -/
structure CloneResultV1 where
  success : Bool
  skipped : Bool
deriving DecidableEq

/-- cloneAndScheduleEmail (cloner.js lines 51-238) reduced to its
observable outcome and cache effect: a source name without a date pattern
returns a skipped result; a destination name found in the in-run cache, the
database or the remote search is skipped; otherwise the name enters the
cache before the clone call and the result reports whether the remote
clone-and-update succeeded.  dbHas, hubspotHas and cloneOk are the oracles
for the database lookup, the remote search and the remote clone. -/
def cloneAndScheduleEmailV1 (originalName : String) (dayOffset : Nat)
    (cache : List String) (dbHas hubspotHas : String → Bool) (cloneOk : Bool) :
    CloneResultV1 × List String :=
  match cloneName originalName dayOffset with
  | none => (CloneResultV1.mk false true, cache)
  | some newName =>
    if decide (newName ∈ cache) then (CloneResultV1.mk false true, cache)
    else if dbHas newName then (CloneResultV1.mk false true, cache)
    else if hubspotHas newName then (CloneResultV1.mk false true, cache)
    else if cloneOk then (CloneResultV1.mk true false, cache ++ [newName])
    else (CloneResultV1.mk false false, cache ++ [newName])

/-- The stat counters of EmailCloner that classify one result. -/
structure StatsV1 where
  successfullyCloned : Nat
  duplicatesSkipped : Nat
  errors : Nat
deriving DecidableEq

/-- All counters at zero. -/
def statsZero : StatsV1 := StatsV1.mk 0 0 0

/-- The result classification of the cloner.js EmailCloner loop (cloner.js
lines 332-343): success counts as cloned, any skipped result counts as a
duplicate, everything else as an error. -/
def tallyV1 (s : StatsV1) (r : CloneResultV1) : StatsV1 :=
  if r.success then StatsV1.mk (s.successfullyCloned + 1) s.duplicatesSkipped s.errors
  else if r.skipped then StatsV1.mk s.successfullyCloned (s.duplicatesSkipped + 1) s.errors
  else StatsV1.mk s.successfullyCloned s.duplicatesSkipped (s.errors + 1)

/-! ## Email cloning: time-slot scheduling -/

/-- The minute-overflow normalisation of src/unnamed/part_000 lines 437-440:
a minute of 60 or more rolls into the hour. -/
def normTime (h m : Nat) : Nat × Nat :=
  if 60 ≤ m then (h + m / 60, m % 60) else (h, m)

/-- One step of the smart strategy of the batch EmailCloner
(src/unnamed/part_000 lines 425-443).  The state is the morning minute
counter, the afternoon minute counter and the email index: the first twelve
emails go to hour 11 on the morning counter, later ones to hour 16 on the
afternoon counter, each counter advancing by five for its own tier, and the
minute then normalised. -/
def smartStep (st : Nat × Nat × Nat) : (Nat × Nat) × (Nat × Nat × Nat) :=
  if st.2.2 < 12 then (normTime 11 st.1, (st.1 + 5, st.2.1, st.2.2 + 1))
  else (normTime 16 st.2.1, (st.1, st.2.1 + 5, st.2.2 + 1))

/-- The sequence of (hour, minute) slots the smart strategy assigns within
one day, starting from a given state. -/
def smartSlotsGo : Nat → Nat × Nat × Nat → List (Nat × Nat)
  | 0, _ => []
  | n + 1, st => (smartStep st).1 :: smartSlotsGo n (smartStep st).2

/-- The smart-strategy slots of one day for n scheduled pairs
(src/unnamed/part_000). -/
def smartSlots (n : Nat) : List (Nat × Nat) := smartSlotsGo n (0, 0, 0)

/-- One step of the default (smart) strategy of the cloner.js EmailCloner
(cloner.js lines 310-320).  The state is the single minute counter and the
morning-slots-used counter; the afternoon branch computes
minuteCounter - 60 but never advances the counter. -/
def smartStepV1 (st : Nat × Nat) : (Nat × Nat) × (Nat × Nat) :=
  if st.2 < 12 then ((11, st.1), (st.1 + 5, st.2 + 1))
  else ((16, st.1 - 60), st)

/-- The slot sequence of the cloner.js default strategy within one day. -/
def smartSlotsV1Go : Nat → Nat × Nat → List (Nat × Nat)
  | 0, _ => []
  | n + 1, st => (smartStepV1 st).1 :: smartSlotsV1Go n (smartStepV1 st).2

/-- The cloner.js default-strategy slots of one day for n scheduled pairs. -/
def smartSlotsV1 (n : Nat) : List (Nat × Nat) := smartSlotsV1Go n (0, 0)

/-- The slot the specification predicts for pair index i under the smart
strategy: morning hour 11 at minute 5 i for i below 12, afternoon hour 16 at
a 5-minute cadence counted from the start of the afternoon tier, with minute
overflow rolled into the hour. -/
def specSmartSlot (i : Nat) : Nat × Nat :=
  if i < 12 then (11, 5 * i)
  else (16 + (5 * (i - 12)) / 60, (5 * (i - 12)) % 60)

/-! ## Email cloning: duplicate detection -/

/-- The fields of a remote search response that the existence checks read. -/
structure SearchRes where
  total : Nat
  results : List String
deriving DecidableEq

/-- The existence decision shared by checkEmailExists and
batchCheckEmailsExist: a transport or API error reports the name as not
existing (cloner.js lines 41-48, src/unnamed/part_000 lines 48-51 and
68-74); a response reports existence when its total is positive or its
results array is non-empty. -/
def existsFromSearch (r : Except String SearchRes) : Bool :=
  match r with
  | .error _ => false
  | .ok d => decide (0 < d.total) || !d.results.isEmpty

/-- checkEmailExists (cloner.js lines 15-49) against a per-name response
oracle. -/
def checkEmailExists (oracle : String → Except String SearchRes) (name : String) : Bool :=
  existsFromSearch (oracle name)

/-- Recording the results of one sub-batch of batchCheckEmailsExist into the
existence map (src/unnamed/part_000 lines 54-57). -/
def applyBatch (oracle : String → Except String SearchRes)
    (m : String → Bool) (batch : List String) : String → Bool :=
  batch.foldl (fun acc n => fun q => if q = n then existsFromSearch (oracle n) else acc q) m

/-- batchCheckEmailsExist (src/unnamed/part_000 lines 16-75): the names are
queried in sub-batches of five (the inter-sub-batch delay is timing only)
and every name starts as not existing. -/
def batchCheckEmailsExist (oracle : String → Except String SearchRes)
    (names : List String) : String → Bool :=
  (chunkArray names 5).foldl (applyBatch oracle) (fun _ => false)

/-- The three-layer duplicate filter of the batch EmailCloner
(src/unnamed/part_000 lines 496-504): a candidate name found in the in-run
cache, the database duplicate set or the remote existence map is dropped and
counted; a surviving name enters the cache and the processing list.  The
result is the processing list, the duplicate count and the final cache. -/
def filterDupsGo (dbHas hubspotHas : String → Bool) :
    List String → List String → List String × Nat × List String
  | [], cache => ([], 0, cache)
  | n :: rest, cache =>
    if decide (n ∈ cache) || dbHas n || hubspotHas n then
      let r := filterDupsGo dbHas hubspotHas rest cache
      (r.1, r.2.1 + 1, r.2.2)
    else
      let r := filterDupsGo dbHas hubspotHas rest (cache ++ [n])
      (n :: r.1, r.2.1, r.2.2)

/-- The duplicate filter applied to the candidate names of a run. -/
def filterDups (cache : List String) (dbHas hubspotHas : String → Bool)
    (names : List String) : List String × Nat × List String :=
  filterDupsGo dbHas hubspotHas names cache

/-! ## Lemmas about deduplication and chunking -/

theorem jsDedupGo_length_le : ∀ (fuel : Nat) (l : List Nat),
    (jsDedupGo fuel l).length ≤ l.length := by
  intro fuel
  induction fuel with
  | zero => intro l; simp [jsDedupGo]
  | succ n ih =>
    intro l
    cases l with
    | nil => simp [jsDedupGo]
    | cons x xs =>
      simp only [jsDedupGo, List.length_cons, Nat.succ_le_succ_iff]
      exact le_trans (ih _) (List.length_filter_le _ _)

theorem jsDedup_length_le (l : List Nat) : (jsDedup l).length ≤ l.length :=
  jsDedupGo_length_le l.length l

theorem jsDedupGo_of_nodup : ∀ (fuel : Nat) (l : List Nat),
    l.length ≤ fuel → l.Nodup → jsDedupGo fuel l = l := by
  intro fuel
  induction fuel with
  | zero =>
    intro l hl _
    have : l = [] := List.eq_nil_of_length_eq_zero (Nat.le_zero.mp hl)
    simp [this, jsDedupGo]
  | succ n ih =>
    intro l hl hnd
    cases l with
    | nil => simp [jsDedupGo]
    | cons x xs =>
      have hx : x ∉ xs := (List.nodup_cons.mp hnd).1
      have hfil : xs.filter (fun y => decide (y ≠ x)) = xs := by
        apply List.filter_eq_self.mpr
        intro a ha
        simp only [decide_eq_true_eq]
        intro h
        exact hx (h ▸ ha)
      simp only [jsDedupGo, hfil]
      have : xs.length ≤ n := by
        simpa [Nat.succ_le_succ_iff] using hl
      rw [ih xs this (List.nodup_cons.mp hnd).2]

theorem jsDedup_of_nodup {l : List Nat} (h : l.Nodup) : jsDedup l = l :=
  jsDedupGo_of_nodup l.length l le_rfl h

theorem chunkGo_eq_chunkArray {α : Type} (size : Nat) (hs : 0 < size) :
    ∀ (fuel : Nat) (l : List α), l.length ≤ fuel → chunkGo size fuel l = chunkArray l size := by
  intro fuel
  induction fuel using Nat.strong_induction_on with
  | _ fuel ih =>
    intro l hl
    cases l with
    | nil =>
      cases fuel <;> simp [chunkGo, chunkArray]
    | cons a arr =>
      cases fuel with
      | zero => simp at hl
      | succ n =>
        have harr : arr.length ≤ n := by simpa [Nat.succ_le_succ_iff] using hl
        have hdrop : ((a :: arr).drop size).length ≤ arr.length := by
          simp only [List.length_drop, List.length_cons]
          omega
        simp only [chunkGo, chunkArray, List.length_cons]
        congr 1
        rw [ih n (Nat.lt_succ_self n) _ (le_trans hdrop harr),
          ih arr.length (Nat.lt_succ_of_le harr) _ hdrop]

theorem chunkArray_nil {α : Type} (size : Nat) : chunkArray ([] : List α) size = [] := by
  simp [chunkArray, chunkGo]

theorem chunkArray_cons {α : Type} (l : List α) (size : Nat) (hs : 0 < size) (hl : l ≠ []) :
    chunkArray l size = l.take size :: chunkArray (l.drop size) size := by
  cases l with
  | nil => exact absurd rfl hl
  | cons a arr =>
    have hdrop : ((a :: arr).drop size).length ≤ arr.length := by
      simp only [List.length_drop, List.length_cons]
      omega
    simp only [chunkArray, List.length_cons, chunkGo]
    congr 1
    exact chunkGo_eq_chunkArray size hs arr.length _ hdrop

theorem chunkArray_flatten {α : Type} (size : Nat) (hs : 0 < size) (l : List α) :
    (chunkArray l size).flatten = l := by
  have key : ∀ (n : Nat) (l : List α), l.length = n → (chunkArray l size).flatten = l := by
    intro n
    induction n using Nat.strong_induction_on with
    | _ n ih =>
      intro l hn
      cases l with
      | nil => simp [chunkArray_nil]
      | cons a arr =>
        rw [chunkArray_cons _ _ hs (by simp)]
        have hlen : ((a :: arr).drop size).length < n := by
          subst hn
          simp only [List.length_drop, List.length_cons]
          omega
        rw [List.flatten_cons, ih _ hlen _ rfl]
        exact List.take_append_drop size (a :: arr)
  exact key l.length l rfl

theorem tierGo_of_ge {α : Type} (arr : List α) (size : Nat) :
    ∀ (fuel index : Nat), arr.length ≤ index → tierGo arr size fuel index = ([], index) := by
  intro fuel index h
  cases fuel with
  | zero => rfl
  | succ n =>
    simp only [tierGo, if_neg (Nat.not_lt.mpr h)]

theorem tierGo_spec {α : Type} (arr : List α) (size : Nat) (hs : 0 < size) :
    ∀ (fuel index : Nat), arr.length ≤ index + fuel →
      (tierGo arr size fuel index).1 = chunkArray (arr.drop index) size
      ∧ arr.length ≤ (tierGo arr size fuel index).2 := by
  intro fuel
  induction fuel with
  | zero =>
    intro index h
    simp only [Nat.add_zero] at h
    constructor
    · rw [List.drop_eq_nil_of_le h]
      simp [tierGo, chunkArray_nil]
    · simpa [tierGo] using h
  | succ n ih =>
    intro index h
    by_cases hlt : index < arr.length
    · have hne : arr.drop index ≠ [] := by
        intro hcontra
        have := List.drop_eq_nil_iff.mp hcontra
        omega
      have hchunk : ¬ ((arr.drop index).take size).isEmpty := by
        simp only [List.isEmpty_iff, List.take_eq_nil_iff]
        push_neg
        exact ⟨by omega, hne⟩
      have hrec := ih (index + size) (by omega)
      simp only [tierGo, if_pos hlt, if_neg hchunk]
      refine ⟨?_, hrec.2⟩
      rw [chunkArray_cons _ _ hs hne, List.drop_drop, hrec.1]
    · have hge : arr.length ≤ index := Nat.not_lt.mp hlt
      rw [tierGo_of_ge arr size _ _ hge]
      constructor
      · rw [List.drop_eq_nil_of_le hge, chunkArray_nil]
      · exact hge

theorem tierChunks_spec {α : Type} (arr : List α) (size : Nat) (hs : 0 < size) :
    (tierChunks arr size 0).1 = chunkArray arr size
    ∧ arr.length ≤ (tierChunks arr size 0).2 := by
  have := tierGo_spec arr size hs (arr.length + 1) 0 (by omega)
  simpa [tierChunks, List.drop_zero] using this

theorem tierChunks_of_ge {α : Type} (arr : List α) (size index : Nat)
    (h : arr.length ≤ index) : tierChunks arr size index = ([], index) :=
  tierGo_of_ge arr size _ index h

/-- The whole default schedule collapses to plain 300-sized chunking: the
first tier's while loop only stops once the index has passed the end of the
input (emitting a final partial chunk on the way), so the later tiers start
past the end and emit nothing. -/
theorem progressiveChunks_eq_chunkArray (arr : List Nat) :
    progressiveChunks arr defaultSizes = chunkArray arr 300 := by
  have h300 := tierChunks_spec arr 300 (by omega)
  obtain ⟨h1, h2⟩ := h300
  simp only [progressiveChunks, defaultSizes, List.foldl]
  rw [tierChunks_of_ge arr 100 _ h2, tierChunks_of_ge arr 50 _ h2,
    tierChunks_of_ge arr 1 _ h2]
  simpa using h1

/-! ## Lemmas about the paginated fetch -/

theorem fetchGo_ok_length (maxCount : Nat) :
    ∀ (stream : List PageResp) (acc : List Nat) (ce : Nat), acc.length ≤ maxCount →
      ∀ res, fetchGo maxCount stream acc ce = Except.ok res → res.length ≤ maxCount := by
  intro stream
  induction stream with
  | nil =>
    intro acc ce hacc res hres
    simp only [fetchGo] at hres
    injection hres with h
    exact h ▸ le_trans (jsDedup_length_le acc) hacc
  | cons r rest ih =>
    intro acc ce hacc res hres
    simp only [fetchGo] at hres
    by_cases h1 : maxCount ≤ acc.length
    · rw [if_pos h1] at hres
      injection hres with h
      exact h ▸ le_trans (jsDedup_length_le acc) hacc
    · rw [if_neg h1] at hres
      cases r with
      | page vids hasMore =>
        simp only at hres
        by_cases h2 : maxCount ≤ (acc ++ vids).length
        · rw [if_pos h2] at hres
          injection hres with h
          refine h ▸ le_trans (jsDedup_length_le _) ?_
          simp [List.length_take]
        · rw [if_neg h2] at hres
          cases hasMore with
          | true =>
            simp only [if_pos rfl] at hres
            exact ih (acc ++ vids) 0 (Nat.le_of_lt (Nat.not_le.mp h2)) res hres
          | false =>
            simp only [Bool.false_eq_true, if_neg] at hres
            injection hres with h
            exact h ▸ le_trans (jsDedup_length_le _) (Nat.le_of_lt (Nat.not_le.mp h2))
      | fail msg =>
        simp only at hres
        by_cases h3 : 0 < acc.length ∧ MAX_RETRIES ≤ ce + 1
        · rw [if_pos h3] at hres
          injection hres with h
          exact h ▸ le_trans (jsDedup_length_le acc) hacc
        · rw [if_neg h3] at hres
          by_cases h4 : acc.length = 0 ∧ MAX_RETRIES ≤ ce + 1
          · rw [if_pos h4] at hres
            exact absurd hres (by simp)
          · rw [if_neg h4] at hres
            exact ih acc (ce + 1) hacc res hres

theorem fetchGo_exact (N : Nat) :
    ∀ (stream : List PageResp) (acc : List Nat) (ce : Nat),
      allMorePages stream = true → errRunsBelow MAX_RETRIES stream ce = true →
      (acc ++ concatVids stream).Nodup → N ≤ acc.length + (concatVids stream).length →
      acc.length < N →
      fetchGo N stream acc ce = Except.ok ((acc ++ concatVids stream).take N) := by
  intro stream
  induction stream with
  | nil =>
    intro acc ce _ _ _ hN hlt
    simp only [concatVids, List.length_nil, Nat.add_zero] at hN
    omega
  | cons r rest ih =>
    intro acc ce hm he hnd hN hlt
    cases r with
    | page vids hasMore =>
      have hmore : hasMore = true ∧ allMorePages rest = true := by
        simpa [allMorePages, Bool.and_eq_true] using hm
      have he' : errRunsBelow MAX_RETRIES rest 0 = true := by
        simpa [errRunsBelow] using he
      have hassoc : acc ++ concatVids (PageResp.page vids hasMore :: rest)
          = (acc ++ vids) ++ concatVids rest := by
        simp [concatVids, List.append_assoc]
      simp only [fetchGo, if_neg (Nat.not_le.mpr hlt)]
      by_cases h2 : N ≤ (acc ++ vids).length
      · rw [if_pos h2]
        congr 1
        rw [hassoc, List.take_append_of_le_length h2]
        apply jsDedup_of_nodup
        have hnd2 : (acc ++ vids).Nodup := by
          rw [hassoc] at hnd
          exact hnd.sublist (List.sublist_append_left _ _)
        exact hnd2.sublist (List.take_sublist _ _)
      · rw [if_neg h2, if_pos hmore.1]
        have hrec := ih (acc ++ vids) 0 hmore.2 he'
          (by rw [hassoc] at hnd; exact hnd)
          (by
            simp only [concatVids, List.length_append] at hN ⊢
            omega)
          (Nat.not_le.mp h2)
        rw [hrec, hassoc]
    | fail msg =>
      have he2 : ce + 1 < MAX_RETRIES ∧ errRunsBelow MAX_RETRIES rest (ce + 1) = true := by
        simpa [errRunsBelow, Bool.and_eq_true] using he
      have hc1 : ¬ (0 < acc.length ∧ MAX_RETRIES ≤ ce + 1) := by
        intro hcontra
        omega
      have hc2 : ¬ (acc.length = 0 ∧ MAX_RETRIES ≤ ce + 1) := by
        intro hcontra
        omega
      simp only [fetchGo, if_neg (Nat.not_le.mpr hlt), if_neg hc1, if_neg hc2]
      have hm' : allMorePages rest = true := by simpa [allMorePages] using hm
      have := ih acc (ce + 1) hm' he2.2
        (by simpa [concatVids] using hnd)
        (by simpa [concatVids] using hN) hlt
      simpa [concatVids] using this

/-- C5: getContactsFromList (first variant) honours the result cap: every
successful fetch returns at most maxCount identifiers; and when every page
reports has-more, no error run reaches the retry limit, the pages carry no
duplicate vids and at least maxCount vids are available, the fetch returns
exactly the first maxCount vids, truncating the final page. -/
theorem claim5 (stream : List PageResp) (N : Nat) :
    (∀ res, getContactsFromList stream N = Except.ok res → res.length ≤ N)
    ∧ (allMorePages stream = true → errRunsBelow MAX_RETRIES stream 0 = true →
        (concatVids stream).Nodup → N ≤ (concatVids stream).length →
        getContactsFromList stream N = Except.ok ((concatVids stream).take N)
        ∧ ((concatVids stream).take N).length = N) := by
  constructor
  · intro res h
    exact fetchGo_ok_length N stream [] 0 (by simp) res h
  · intro hm he hnd hN
    by_cases h0 : N = 0
    · subst h0
      refine ⟨?_, by simp⟩
      cases stream with
      | nil => simp [getContactsFromList, fetchGo, jsDedup, jsDedupGo]
      | cons r rest => simp [getContactsFromList, fetchGo, jsDedup, jsDedupGo]
    · have := fetchGo_exact N stream [] 0 hm he (by simpa using hnd)
        (by simpa using hN) (by simpa using Nat.pos_of_ne_zero h0)
      refine ⟨by simpa [getContactsFromList] using this, ?_⟩
      simp only [List.length_take]
      omega

/-- C5 witness: a concrete three-response stream (a page, a transient error,
a page) with cap 3 returns exactly the first three vids. -/
theorem claim5_witness :
    getContactsFromList
        [PageResp.page [1, 2] true, PageResp.fail ("boom"), PageResp.page [3, 4] true] 3
      = Except.ok ((concatVids
        [PageResp.page [1, 2] true, PageResp.fail ("boom"), PageResp.page [3, 4] true]).take 3)
    ∧ ((concatVids
        [PageResp.page [1, 2] true, PageResp.fail ("boom"), PageResp.page [3, 4] true]).take 3).length
      = 3 :=
  (claim5 _ 3).2 (by decide) (by decide) (by decide) (by decide)

/-- C2 (amended): on a run of page errors reaching the retry limit, both
fetch variants return the partial result as a success when at least one
identifier was collected; when nothing was collected, the first variant
fails carrying the last error message while the second variant never fails:
it returns the empty list as a success. -/
theorem claim2 (a b c : String) (vids : List Nat) (N : Nat)
    (h0 : 0 < N) (h1 : vids ≠ []) (h2 : vids.length < N) :
    getContactsFromList [PageResp.fail a, PageResp.fail b, PageResp.fail c] N
      = Except.error ("Unable to fetch contacts from list: " ++ c)
    ∧ getContactsFromList
        [PageResp.page vids true, PageResp.fail a, PageResp.fail b, PageResp.fail c] N
      = Except.ok (jsDedup vids)
    ∧ getContactsFromList2
        [PageResp.page vids true, PageResp.fail a, PageResp.fail b, PageResp.fail c] N
      = Except.ok (jsDedup vids)
    ∧ getContactsFromList2 [PageResp.fail a, PageResp.fail b, PageResp.fail c] N
      = Except.ok [] := by
  have hvpos : 0 < vids.length := List.length_pos.mpr h1
  refine ⟨?_, ?_, ?_, ?_⟩
  · simp [getContactsFromList, fetchGo, MAX_RETRIES, Nat.not_le.mpr h0]
  · simp [getContactsFromList, fetchGo, MAX_RETRIES, Nat.not_le.mpr h0,
      Nat.not_le.mpr h2, hvpos, Nat.pos_iff_ne_zero.mp hvpos]
  · simp [getContactsFromList2, fetchGo2, MAX_RETRIES, Nat.not_le.mpr h0,
      Nat.not_le.mpr h2]
  · simp [getContactsFromList2, fetchGo2, MAX_RETRIES, Nat.not_le.mpr h0,
      jsDedup, jsDedupGo]

/-- C2 witness: the amended behaviour at a concrete stream (three failing
requests, cap 2, and the same with one successful page first, for both
variants). -/
theorem claim2_witness :
    getContactsFromList [PageResp.fail ("x"), PageResp.fail ("y"), PageResp.fail ("z")] 2
      = Except.error ("Unable to fetch contacts from list: " ++ "z")
    ∧ getContactsFromList
        [PageResp.page [9] true, PageResp.fail ("x"), PageResp.fail ("y"), PageResp.fail ("z")] 2
      = Except.ok (jsDedup [9])
    ∧ getContactsFromList2
        [PageResp.page [9] true, PageResp.fail ("x"), PageResp.fail ("y"), PageResp.fail ("z")] 2
      = Except.ok (jsDedup [9])
    ∧ getContactsFromList2 [PageResp.fail ("x"), PageResp.fail ("y"), PageResp.fail ("z")] 2
      = Except.ok [] :=
  claim2 ("x") ("y") ("z") [9] 2 (by decide) (by decide) (by decide)

/-- C2 counterexample: in the second cited variant of getContactsFromList, a
fetch in which every page request errors and nothing was collected returns
the empty list as a plain success instead of failing with an error. -/
theorem claim2_counterexample :
    getContactsFromList2 [PageResp.fail ("e1"), PageResp.fail ("e2"), PageResp.fail ("e3")] 5
      = Except.ok []
    ∧ (Except.ok ([] : List Nat) : Except String (List Nat))
      ≠ Except.error ("Unable to fetch contacts from list: " ++ "e3") := by
  refine ⟨?_, by simp⟩
  simp [getContactsFromList2, fetchGo2, MAX_RETRIES, jsDedup, jsDedupGo]

/-! ## Lemmas about the allocation selection -/

theorem addAllToUsed_cons (used : List Nat) (x : Nat) (xs : List Nat) :
    addAllToUsed used (x :: xs)
      = addAllToUsed (if decide (x ∈ used) then used else used ++ [x]) xs := rfl

theorem mem_addAllToUsed_left : ∀ (sel used : List Nat) (a : Nat),
    a ∈ used → a ∈ addAllToUsed used sel := by
  intro sel
  induction sel with
  | nil =>
    intro used a h
    simpa [addAllToUsed] using h
  | cons x xs ih =>
    intro used a h
    rw [addAllToUsed_cons]
    apply ih
    by_cases hx : x ∈ used
    · simpa [hx] using h
    · simp only [hx, decide_eq_true_eq, if_neg]
      exact List.mem_append_left _ h

theorem mem_addAllToUsed_of_mem : ∀ (sel used : List Nat) (a : Nat),
    a ∈ sel → a ∈ addAllToUsed used sel := by
  intro sel
  induction sel with
  | nil =>
    intro used a h
    exact absurd h (List.not_mem_nil a)
  | cons x xs ih =>
    intro used a h
    rw [addAllToUsed_cons]
    rcases List.mem_cons.mp h with rfl | hxs
    · apply mem_addAllToUsed_left
      by_cases hx : a ∈ used
      · simp [hx]
      · simp only [hx, decide_eq_true_eq, if_neg]
        exact List.mem_append_right _ (List.mem_singleton.mpr rfl)
    · exact ih _ a hxs

theorem jsSliceTo_subset (l : List α) (e : Int) : jsSliceTo l e ⊆ l := by
  unfold jsSliceTo
  by_cases h : 0 ≤ e
  · rw [if_pos h]
    exact List.take_subset _ _
  · rw [if_neg h]
    exact List.take_subset _ _

theorem selectContacts_not_used (p s : List Nat) (b : Bool) (c : Int) (used : List Nat)
    (v : Nat) (hv : v ∈ (selectContacts p s b c used).1) : v ∉ used := by
  simp only [selectContacts] at hv
  have hv2 := jsSliceTo_subset _ _ hv
  rcases List.mem_append.mp hv2 with h | h
  · have := (List.mem_filter.mp h).2
    simpa using this
  · by_cases hP : (((p.filter (fun v => decide (v ∉ used))).length : Int) < c ∧ b = true)
    · rw [if_pos hP] at h
      have := (List.mem_filter.mp h).2
      simpa using this
    · rw [if_neg hP] at h
      exact absurd h (List.not_mem_nil v)

/-- C3: in one run, every identifier selected by an allocation is inserted
into the shared used set, and a later allocation with that used set filters
it out, so two sequential allocations never return overlapping selections. -/
theorem claim3 (p1 s1 : List Nat) (b1 : Bool) (c1 : Int) (p2 s2 : List Nat) (b2 : Bool)
    (c2 : Int) (used : List Nat) (v : Nat)
    (hv : v ∈ (selectContacts p1 s1 b1 c1 used).1) :
    v ∈ (selectContacts p1 s1 b1 c1 used).2
    ∧ v ∉ (selectContacts p2 s2 b2 c2 ((selectContacts p1 s1 b1 c1 used).2)).1 := by
  have hins : v ∈ (selectContacts p1 s1 b1 c1 used).2 :=
    mem_addAllToUsed_of_mem _ _ _ hv
  refine ⟨hins, fun hcontra => ?_⟩
  exact selectContacts_not_used p2 s2 b2 c2 _ v hcontra hins

/-- C3 witness: with a one-element primary list, the selected identifier
lands in the used set and a second allocation over the same identifier
selects nothing. -/
theorem claim3_witness :
    7 ∈ (selectContacts [7] [] false 1 []).2
    ∧ 7 ∉ (selectContacts [7] [] false 1 ((selectContacts [7] [] false 1 []).2)).1 :=
  claim3 [7] [] false 1 [7] [] false 1 [] 7 (by decide)

/-- C9 (amended): the first processSingleCampaign variant computes the
fulfillment percentage as round(100 times selected over count) for a
positive count and as 0 for a count of zero or below; with target 100, 60
unused primary and 50 unused secondary identifiers the selection has 100
elements and the fulfillment is 100, and with no secondary and 40 unused
primary identifiers the selection has 40 elements and the fulfillment is 40.
The second variant has no guard and is treated in the counterexample. -/
theorem claim9 :
    (∀ (s : Nat) (c : Int), c ≤ 0 → fulfillmentPercentage1 s c = 0)
    ∧ (∀ (s : Nat) (c : Int), 0 < c →
        fulfillmentPercentage1 s c = jsRound ((s : ℚ) * 100 / (c : ℚ)))
    ∧ ((selectContacts (List.range 60) ((List.range 50).map (fun v => v + 100))
          true 100 []).1.length = 100
        ∧ fulfillmentPercentage1 100 100 = 100)
    ∧ ((selectContacts (List.range 40) [] false 100 []).1.length = 40
        ∧ fulfillmentPercentage1 40 100 = 40) := by
  refine ⟨?_, ?_, ⟨?_, ?_⟩, ⟨?_, ?_⟩⟩
  · intro s c hc
    simp [fulfillmentPercentage1, not_lt.mpr hc]
  · intro s c hc
    simp [fulfillmentPercentage1, hc]
  · decide
  · norm_num [fulfillmentPercentage1, jsRound]
  · decide
  · norm_num [fulfillmentPercentage1, jsRound]

/-- C9 witness: a negative target count yields fulfillment 0 in the guarded
variant. -/
theorem claim9_witness : ((-3 : Int) ≤ 0) ∧ fulfillmentPercentage1 5 (-3) = 0 :=
  ⟨by decide, claim9.1 5 (-3) (by decide)⟩

/-- C9 counterexample: the second processSingleCampaign variant has no
count-positive guard, so a target count of 0 produces the NaN of a
zero-by-zero division rather than the value 0 the claim requires. -/
theorem claim9_counterexample :
    fulfillmentPercentage2 0 0 = none ∧ (none : Option Int) ≠ some 0 :=
  ⟨rfl, by simp⟩

/-- C1 (amended): progressiveChunks with the default schedule equals plain
fixed-size 300 chunking: the first tier consumes the whole input, emitting
full 300-chunks and one final partial chunk, and the 100, 50 and 1 tiers
never emit; 1000 identifiers split into sizes 300, 300, 300, 100. -/
theorem claim1 :
    (∀ (arr : List Nat), progressiveChunks arr defaultSizes = chunkArray arr 300)
    ∧ (progressiveChunks (List.range 1000) defaultSizes).map List.length
      = [300, 300, 300, 100] := by
  refine ⟨progressiveChunks_eq_chunkArray, ?_⟩
  decide

/-- C1 counterexample: 307 identifiers split as one chunk of 300 and one
chunk of 7 emitted by the 300 tier itself, not as a chunk of 300 followed by
seven chunks of size 1 from the final tier. -/
theorem claim1_counterexample :
    (progressiveChunks (List.range 307) defaultSizes).map List.length = [300, 7]
    ∧ (progressiveChunks (List.range 307) defaultSizes).map List.length
      ≠ [300, 1, 1, 1, 1, 1, 1, 1] := by
  refine ⟨by decide, by decide⟩

/-! ## Lemmas about the chunked upload -/

theorem uploadChunks_sum (transport : Nat → Nat → Bool) :
    ∀ (chunks : List (List Nat)) (i : Nat),
      (uploadChunks transport chunks i).1
          + (((uploadChunks transport chunks i).2).map List.length).sum
        = (chunks.map List.length).sum := by
  intro chunks
  induction chunks with
  | nil =>
    intro i
    simp [uploadChunks]
  | cons c rest ih =>
    intro i
    simp only [uploadChunks, List.map_cons, List.sum_cons]
    by_cases h : tryChunk transport i
    · simp only [if_pos h]
      have := ih (i + 1)
      omega
    · simp only [if_neg h, List.map_cons, List.sum_cons]
      have := ih (i + 1)
      omega

theorem addChunks2_all_ok (transport : Nat → Bool) (ht : ∀ i, transport i = true) :
    ∀ (chunks : List (List Nat)) (i : Nat), addChunks2 transport chunks i = Except.ok () := by
  intro chunks
  induction chunks with
  | nil => intro i; rfl
  | cons c rest ih =>
    intro i
    simp [addChunks2, ht i, ih]

/-- C4 (amended): the first addContactsToList variant accounts for every
identifier no matter how the transport behaves, splitting the input exactly
into successfully uploaded identifiers and identifiers of recorded failed
chunks, so an all-failing chunk never aborts the batch; an empty identifier
list is a no-op; and the second variant returns without error whenever every
chunk upload succeeds (its behaviour on a failing chunk is the
counterexample). -/
theorem claim4 (transport : Nat → Nat → Bool) (contacts : List Nat) :
    (addContactsToList1 transport contacts).1
        + (((addContactsToList1 transport contacts).2).map List.length).sum
      = contacts.length
    ∧ (contacts = [] → addContactsToList1 transport contacts = (0, []))
    ∧ (∀ transport2 : Nat → Bool, (∀ i, transport2 i = true) →
        addContactsToList2 transport2 contacts = Except.ok ()) := by
  refine ⟨?_, ?_, ?_⟩
  · by_cases hE : contacts.isEmpty
    · have : contacts = [] := List.isEmpty_iff.mp hE
      subst this
      simp [addContactsToList1]
    · simp only [addContactsToList1, if_neg hE]
      rw [uploadChunks_sum]
      have hflat : (progressiveChunks contacts defaultSizes).flatten = contacts := by
        rw [progressiveChunks_eq_chunkArray]
        exact chunkArray_flatten 300 (by omega) contacts
      calc ((progressiveChunks contacts defaultSizes).map List.length).sum
          = (progressiveChunks contacts defaultSizes).flatten.length :=
            (List.length_flatten _).symm
        _ = contacts.length := by rw [hflat]
  · intro h
    subst h
    simp [addContactsToList1]
  · intro t2 ht
    exact addChunks2_all_ok t2 ht _ 0

/-- C4 witness: the empty-input no-op of the amended claim at a concrete
transport. -/
theorem claim4_witness : addContactsToList1 (fun _ _ => false) [] = (0, []) :=
  (claim4 (fun _ _ => false) []).2.1 rfl

/-- C4 counterexample: the second cited variant of addContactsToList throws
to its caller as soon as one chunk upload fails, instead of recording the
chunk and returning normally. -/
theorem claim4_counterexample :
    addContactsToList2 (fun _ => false) [1, 2, 3]
      = Except.error ("Failed to add contacts to list") := by
  rfl

/-! ## Lemmas about the smart scheduling strategy -/

theorem normTime_eq (h m : Nat) : normTime h m = (h + m / 60, m % 60) := by
  unfold normTime
  by_cases h60 : 60 ≤ m
  · rw [if_pos h60]
  · rw [if_neg h60]
    have hd : m / 60 = 0 := Nat.div_eq_of_lt (by omega)
    have hm : m % 60 = m := Nat.mod_eq_of_lt (by omega)
    rw [hd, hm, Nat.add_zero]

theorem smartSlotsGo_spec : ∀ (n k i : Nat), i < n →
    (smartSlotsGo n (5 * min k 12, 5 * (k - 12), k)).getD i (0, 0)
      = specSmartSlot (k + i) := by
  intro n
  induction n with
  | zero =>
    intro k i h
    omega
  | succ m ih =>
    intro k i h
    have hstep : smartStep (5 * min k 12, 5 * (k - 12), k)
        = (specSmartSlot k, (5 * min (k + 1) 12, 5 * ((k + 1) - 12), k + 1)) := by
      by_cases hk : k < 12
      · rw [show min k 12 = k from by omega]
        simp only [smartStep, if_pos hk, normTime_eq]
        rw [show 11 + 5 * k / 60 = 11 from by omega,
          show 5 * k % 60 = 5 * k from by omega,
          show specSmartSlot k = (11, 5 * k) from by rw [specSmartSlot, if_pos hk],
          show 5 * min (k + 1) 12 = 5 * k + 5 from by omega,
          show 5 * ((k + 1) - 12) = 5 * (k - 12) from by omega]
      · rw [show min k 12 = 12 from by omega]
        simp only [smartStep, if_neg hk, normTime_eq]
        rw [show specSmartSlot k
            = (16 + 5 * (k - 12) / 60, 5 * (k - 12) % 60) from by
              rw [specSmartSlot, if_neg hk],
          show 5 * min (k + 1) 12 = 5 * 12 from by omega,
          show 5 * ((k + 1) - 12) = 5 * (k - 12) + 5 from by omega]
    cases i with
    | zero =>
      simp only [smartSlotsGo, hstep, List.getD_cons_zero, Nat.add_zero]
    | succ j =>
      simp only [smartSlotsGo, hstep, List.getD_cons_succ]
      have := ih (k + 1) j (by omega)
      rw [this]
      congr 1
      omega

theorem smartSlotsV1Go_spec : ∀ (n k i : Nat), i < n →
    (smartSlotsV1Go n (5 * min k 12, min k 12)).getD i (0, 0)
      = (if k + i < 12 then (11, 5 * (k + i)) else (16, 0)) := by
  intro n
  induction n with
  | zero =>
    intro k i h
    omega
  | succ m ih =>
    intro k i h
    have hstep : smartStepV1 (5 * min k 12, min k 12)
        = ((if k < 12 then (11, 5 * k) else (16, 0)),
           (5 * min (k + 1) 12, min (k + 1) 12)) := by
      by_cases hk : k < 12
      · rw [show min k 12 = k from by omega]
        simp only [smartStepV1, if_pos hk]
        rw [show 5 * min (k + 1) 12 = 5 * k + 5 from by omega,
          show min (k + 1) 12 = k + 1 from by omega]
      · rw [show min k 12 = 12 from by omega]
        simp only [smartStepV1, if_neg (by omega : ¬ ((12 : Nat) < 12)), if_neg hk]
        rw [show (5 * 12 - 60 : Nat) = 0 from by omega,
          show 5 * min (k + 1) 12 = 5 * 12 from by omega,
          show min (k + 1) 12 = 12 from by omega]
    cases i with
    | zero =>
      simp only [smartSlotsV1Go, hstep, List.getD_cons_zero, Nat.add_zero]
    | succ j =>
      simp only [smartSlotsV1Go, hstep, List.getD_cons_succ]
      have := ih (k + 1) j (by omega)
      rw [this]
      by_cases hkj : k + (j + 1) < 12
      · rw [if_pos (by omega : k + 1 + j < 12), if_pos hkj]
        congr 2
        omega
      · rw [if_neg (by omega : ¬ (k + 1 + j < 12)), if_neg hkj]

/-- C7 (amended): in the batch EmailCloner the smart strategy schedules pair
index i below 12 at hour 11 minute 5 i and pair index i of 12 or above at
hour 16 with a 5-minute cadence counted from the start of the afternoon
tier, minutes of 60 or more rolling into the hour; in the cloner.js
EmailCloner the afternoon branch never advances the minute counter, so every
pair with index 12 or above is scheduled at hour 16 minute 0. -/
theorem claim7 :
    (∀ (n i : Nat), i < n → (smartSlots n).getD i (0, 0) = specSmartSlot i)
    ∧ (∀ (n i : Nat), i < n →
        (smartSlotsV1 n).getD i (0, 0) = (if i < 12 then (11, 5 * i) else (16, 0))) := by
  constructor
  · intro n i h
    have := smartSlotsGo_spec n 0 i h
    simpa [smartSlots] using this
  · intro n i h
    have := smartSlotsV1Go_spec n 0 i h
    simpa [smartSlotsV1] using this

/-- C7 witness: the thirteenth pair of a thirteen-slot day lands at the
start of the afternoon tier in the batch variant. -/
theorem claim7_witness : (smartSlots 13).getD 12 (0, 0) = specSmartSlot 12 :=
  claim7.1 13 12 (by decide)

/-- C7 counterexample: in the cloner.js variant the fourteenth pair of a day
is scheduled at hour 16 minute 0, not at the 5-minute cadence slot the claim
predicts for index 13. -/
theorem claim7_counterexample :
    (smartSlotsV1 14).getD 13 (0, 0) = (16, 0) ∧ (16, 0) ≠ specSmartSlot 13 := by
  refine ⟨by decide, by decide⟩

/-! ## Lemmas about destination-name generation -/

theorem genCandidates_fold (offset : Nat) :
    ∀ (names : List String) (acc : List String × Nat),
      names.foldl
        (fun acc n =>
          match cloneName n offset with
          | some newName => (acc.1 ++ [newName], acc.2)
          | none => (acc.1, acc.2 + 1))
        acc
      = (acc.1 ++ names.filterMap (fun n => cloneName n offset),
         acc.2 + (names.filter (fun n => (cloneName n offset).isNone)).length) := by
  intro names
  induction names with
  | nil =>
    intro acc
    simp
  | cons n rest ih =>
    intro acc
    simp only [List.foldl_cons]
    cases hc : cloneName n offset with
    | some s =>
      rw [ih]
      simp [List.filterMap_cons, List.filter_cons, hc]
    | none =>
      rw [ih]
      refine Prod.ext ?_ ?_
      · simp [List.filterMap_cons, hc]
      · simp only [List.filter_cons, hc, Option.isNone_none, if_true, List.length_cons]
        omega

/-- C8 (amended): for a source name in which the date pattern matches a
parseable DD MMM YYYY substring, the destination name is the source name
with that substring replaced by the source date plus the day offset in the
identical format, byte for byte on the claim's example; and in the batch
EmailCloner a source name without the pattern is counted as an error and
contributes no candidate.  The cloner.js EmailCloner instead counts that
skip as a duplicate, which is the counterexample. -/
theorem claim8 :
    (∀ (name : String) (offset : Nat) (pre mid post : List Char) (y m d : Nat),
        findDate name.data = some (pre, mid, post) →
        parseDateChars mid = some (y, m, d) →
        cloneName name offset
          = some (String.mk pre
              ++ fmtDate (addDays y m d offset).1 (addDays y m d offset).2.1
                  (addDays y m d offset).2.2
              ++ String.mk post))
    ∧ cloneName ("Acme - 05 Mar 2025") 3 = some ("Acme - 08 Mar 2025")
    ∧ (∀ (names : List String) (offset : Nat),
        (genCandidates names offset).2
          = (names.filter (fun n => (cloneName n offset).isNone)).length
        ∧ (genCandidates names offset).1
          = names.filterMap (fun n => cloneName n offset)) := by
  refine ⟨?_, ?_, ?_⟩
  · intro name offset pre mid post y m d h1 h2
    simp [cloneName, h1, h2]
  · decide
  · intro names offset
    unfold genCandidates
    rw [genCandidates_fold]
    constructor
    · simp
    · simp

/-- C8 witness: the general substitution statement instantiated on the
claim's example name and offset. -/
theorem claim8_witness :
    cloneName ("Acme - 05 Mar 2025") 3
      = some (String.mk (String.data ("Acme - "))
          ++ fmtDate (addDays 2025 2 5 3).1 (addDays 2025 2 5 3).2.1
              (addDays 2025 2 5 3).2.2
          ++ String.mk (String.data (""))) :=
  claim8.1 ("Acme - 05 Mar 2025") 3 (String.data ("Acme - "))
    (String.data ("05 Mar 2025")) (String.data ("")) 2025 2 5 (by decide) (by decide)

/-- C8 counterexample: in the cloner.js EmailCloner a source name without a
date pattern produces a skipped result that the stat loop counts as a
duplicate, with the error counter untouched, contradicting counted as an
error, not as a duplicate. -/
theorem claim8_counterexample :
    cloneName ("Acme Newsletter Alpha") 3 = none
    ∧ tallyV1 statsZero
        (cloneAndScheduleEmailV1 ("Acme Newsletter Alpha") 3 [] (fun _ => false)
          (fun _ => false) true).1
      = StatsV1.mk 0 1 0 := by
  refine ⟨by decide, by decide⟩

/-! ## Lemmas about duplicate detection -/

theorem applyBatch_eval (oracle : String → Except String SearchRes) :
    ∀ (batch : List String) (m : String → Bool) (n : String),
      applyBatch oracle m batch n
        = if n ∈ batch then existsFromSearch (oracle n) else m n := by
  intro batch
  induction batch with
  | nil =>
    intro m n
    simp [applyBatch]
  | cons b bs ih =>
    intro m n
    have hstep : applyBatch oracle m (b :: bs)
        = applyBatch oracle (fun q => if q = b then existsFromSearch (oracle b) else m q) bs :=
      rfl
    rw [hstep, ih]
    by_cases h1 : n ∈ bs
    · rw [if_pos h1, if_pos (List.mem_cons_of_mem b h1)]
    · rw [if_neg h1]
      by_cases h2 : n = b
      · subst h2
        rw [if_pos rfl, if_pos (List.mem_cons_self n bs)]
      · rw [if_neg h2, if_neg (by simp [h1, h2])]

theorem foldBatches_eval (oracle : String → Except String SearchRes) :
    ∀ (chunks : List (List String)) (m : String → Bool) (n : String),
      (chunks.foldl (applyBatch oracle) m) n
        = if n ∈ chunks.flatten then existsFromSearch (oracle n) else m n := by
  intro chunks
  induction chunks with
  | nil =>
    intro m n
    simp
  | cons c cs ih =>
    intro m n
    simp only [List.foldl_cons, List.flatten_cons]
    rw [ih, applyBatch_eval]
    by_cases h1 : n ∈ cs.flatten
    · rw [if_pos h1, if_pos (List.mem_append_right c h1)]
    · rw [if_neg h1]
      by_cases h2 : n ∈ c
      · rw [if_pos h2, if_pos (List.mem_append_left _ h2)]
      · rw [if_neg h2, if_neg (by simp [h1, h2])]

theorem batchCheck_eval (oracle : String → Except String SearchRes)
    (names : List String) (n : String) :
    batchCheckEmailsExist oracle names n
      = if n ∈ names then existsFromSearch (oracle n) else false := by
  unfold batchCheckEmailsExist
  rw [foldBatches_eval, chunkArray_flatten 5 (by omega)]

theorem filterDupsGo_clean (dbHas hubspotHas : String → Bool) :
    ∀ (names cache : List String) (n : String),
      n ∈ (filterDupsGo dbHas hubspotHas names cache).1 →
      n ∉ cache ∧ dbHas n = false ∧ hubspotHas n = false := by
  intro names
  induction names with
  | nil =>
    intro cache n h
    simp [filterDupsGo] at h
  | cons m rest ih =>
    intro cache n h
    simp only [filterDupsGo] at h
    by_cases hc : (decide (m ∈ cache) || dbHas m || hubspotHas m) = true
    · rw [if_pos hc] at h
      exact ih cache n h
    · rw [if_neg hc] at h
      rcases List.mem_cons.mp h with rfl | htail
      · have := hc
        simp only [Bool.or_eq_true, decide_eq_true_eq, not_or] at this
        refine ⟨this.1.1, ?_, ?_⟩
        · exact Bool.not_eq_true _ ▸ (by simpa using this.1.2)
        · exact Bool.not_eq_true _ ▸ (by simpa using this.2)
      · have := ih (cache ++ [m]) n htail
        refine ⟨fun hmem => this.1 (List.mem_append_left _ hmem), this.2.1, this.2.2⟩

theorem filterDupsGo_nodup (dbHas hubspotHas : String → Bool) :
    ∀ (names cache : List String), (filterDupsGo dbHas hubspotHas names cache).1.Nodup := by
  intro names
  induction names with
  | nil =>
    intro cache
    simp [filterDupsGo]
  | cons m rest ih =>
    intro cache
    simp only [filterDupsGo]
    by_cases hc : (decide (m ∈ cache) || dbHas m || hubspotHas m) = true
    · rw [if_pos hc]
      exact ih cache
    · rw [if_neg hc]
      refine List.nodup_cons.mpr ⟨?_, ih (cache ++ [m])⟩
      intro hmem
      have := (filterDupsGo_clean dbHas hubspotHas rest (cache ++ [m]) m hmem).1
      exact this (List.mem_append_right _ (List.mem_singleton.mpr rfl))

theorem filterDupsGo_mem (dbHas hubspotHas : String → Bool) :
    ∀ (names cache : List String) (n : String),
      n ∈ names → n ∉ cache → dbHas n = false → hubspotHas n = false →
      n ∈ (filterDupsGo dbHas hubspotHas names cache).1 := by
  intro names
  induction names with
  | nil =>
    intro cache n h
    exact absurd h (List.not_mem_nil n)
  | cons m rest ih =>
    intro cache n hmem hcache hdb hhub
    simp only [filterDupsGo]
    by_cases hc : (decide (m ∈ cache) || dbHas m || hubspotHas m) = true
    · rw [if_pos hc]
      have hne : n ≠ m := by
        intro h
        subst h
        simp [hcache, hdb, hhub] at hc
      exact ih cache n (List.mem_of_ne_of_mem hne hmem) hcache hdb hhub
    · rw [if_neg hc]
      by_cases hnm : n = m
      · subst hnm
        exact List.mem_cons_self n _
      · refine List.mem_cons_of_mem m (ih (cache ++ [m]) n
          (List.mem_of_ne_of_mem hnm hmem) ?_ hdb hhub)
        intro hmem2
        rcases List.mem_append.mp hmem2 with h | h
        · exact hcache h
        · exact hnm (List.mem_singleton.mp h)

theorem filterDupsGo_length (dbHas hubspotHas : String → Bool) :
    ∀ (names cache : List String),
      names.length
        = (filterDupsGo dbHas hubspotHas names cache).1.length
          + (filterDupsGo dbHas hubspotHas names cache).2.1 := by
  intro names
  induction names with
  | nil =>
    intro cache
    simp [filterDupsGo]
  | cons m rest ih =>
    intro cache
    simp only [filterDupsGo, List.length_cons]
    by_cases hc : (decide (m ∈ cache) || dbHas m || hubspotHas m) = true
    · rw [if_pos hc]
      have := ih cache
      simpa using by omega
    · rw [if_neg hc]
      have := ih (cache ++ [m])
      simp only [List.length_cons]
      omega

/-- C6: before any clone, the batch EmailCloner checks every candidate name
against the remote existence map built in sub-batches of five (which answers
exactly the per-name search result for every queried name), the in-run
cache and the database duplicate set; a name matched by any layer never
reaches the processing list, a name matched by no layer reaches it, the
processing list holds no name twice, the duplicate counter accounts for
every dropped candidate, and the concurrent clone groups of three partition
the processing list without loss; in the sequential cloner.js variant a
destination name matched by any of the three layers likewise returns a
skipped result and leaves the cache unchanged. -/
theorem claim6 (names cache : List String) (dbHas : String → Bool)
    (oracle : String → Except String SearchRes) :
    (∀ n, n ∈ names → batchCheckEmailsExist oracle names n = existsFromSearch (oracle n))
    ∧ (∀ n, (n ∈ cache ∨ dbHas n = true ∨ batchCheckEmailsExist oracle names n = true) →
        n ∉ (filterDups cache dbHas (batchCheckEmailsExist oracle names) names).1)
    ∧ (∀ n, n ∈ names → n ∉ cache → dbHas n = false →
        batchCheckEmailsExist oracle names n = false →
        n ∈ (filterDups cache dbHas (batchCheckEmailsExist oracle names) names).1)
    ∧ (filterDups cache dbHas (batchCheckEmailsExist oracle names) names).1.Nodup
    ∧ names.length
        = (filterDups cache dbHas (batchCheckEmailsExist oracle names) names).1.length
          + (filterDups cache dbHas (batchCheckEmailsExist oracle names) names).2.1
    ∧ (chunkArray
          (filterDups cache dbHas (batchCheckEmailsExist oracle names) names).1 3).flatten
        = (filterDups cache dbHas (batchCheckEmailsExist oracle names) names).1
    ∧ (∀ (origName newName : String) (offset : Nat) (cacheL : List String)
        (db2 hub2 : String → Bool) (ok : Bool),
        cloneName origName offset = some newName →
        (newName ∈ cacheL ∨ db2 newName = true ∨ hub2 newName = true) →
        (cloneAndScheduleEmailV1 origName offset cacheL db2 hub2 ok).1.skipped = true
        ∧ (cloneAndScheduleEmailV1 origName offset cacheL db2 hub2 ok).2 = cacheL) := by
  refine ⟨?_, ?_, ?_, ?_, ?_, ?_, ?_⟩
  · intro n hn
    rw [batchCheck_eval, if_pos hn]
  · intro n hlayer hmem
    have hclean := filterDupsGo_clean dbHas (batchCheckEmailsExist oracle names)
      names cache n hmem
    rcases hlayer with h | h | h
    · exact hclean.1 h
    · rw [hclean.2.1] at h
      cases h
    · rw [hclean.2.2] at h
      cases h
  · intro n hn hcache hdb hhub
    exact filterDupsGo_mem dbHas _ names cache n hn hcache hdb hhub
  · exact filterDupsGo_nodup dbHas _ names cache
  · exact filterDupsGo_length dbHas _ names cache
  · exact chunkArray_flatten 3 (by omega) _
  · intro origName newName offset cacheL db2 hub2 ok hname hlayer
    simp only [cloneAndScheduleEmailV1, hname]
    rcases hlayer with h | h | h
    · rw [if_pos (by simpa using h)]
      exact ⟨rfl, rfl⟩
    · by_cases hcl : newName ∈ cacheL
      · rw [if_pos (by simpa using hcl)]
        exact ⟨rfl, rfl⟩
      · rw [if_neg (by simpa using hcl), if_pos h]
        exact ⟨rfl, rfl⟩
    · by_cases hcl : newName ∈ cacheL
      · rw [if_pos (by simpa using hcl)]
        exact ⟨rfl, rfl⟩
      · rw [if_neg (by simpa using hcl)]
        by_cases hdb2 : db2 newName = true
        · rw [if_pos hdb2]
          exact ⟨rfl, rfl⟩
        · rw [if_neg hdb2, if_pos h]
          exact ⟨rfl, rfl⟩

/-- C6 witness: with candidates A and B, A already cached and the remote
search finding nothing, A is skipped and B survives to the clone phase. -/
theorem claim6_witness :
    ("A" : String) ∉ (filterDups [("A")] (fun _ => false)
        (batchCheckEmailsExist (fun _ => Except.ok (SearchRes.mk 0 [])) [("A"), ("B")])
        [("A"), ("B")]).1
    ∧ ("B" : String) ∈ (filterDups [("A")] (fun _ => false)
        (batchCheckEmailsExist (fun _ => Except.ok (SearchRes.mk 0 [])) [("A"), ("B")])
        [("A"), ("B")]).1 :=
  ⟨(claim6 [("A"), ("B")] [("A")] (fun _ => false)
      (fun _ => Except.ok (SearchRes.mk 0 []))).2.1 ("A") (Or.inl (by decide)),
   (claim6 [("A"), ("B")] [("A")] (fun _ => false)
      (fun _ => Except.ok (SearchRes.mk 0 []))).2.2.1 ("B") (by decide) (by decide)
      (by decide) (by decide)⟩

/-- C10: a remote existence check whose search call errors reports the name
as not existing, in the single check and in the batch map alike, so a name
that is present remotely but whose search call errors passes the remote
layer and, when the cache and database also miss it, proceeds to cloning. -/
theorem claim10 (oracle : String → Except String SearchRes) (names cache : List String)
    (dbHas : String → Bool) (name msg : String)
    (h1 : oracle name = Except.error msg) (h2 : name ∈ names) (h3 : name ∉ cache)
    (h4 : dbHas name = false) :
    checkEmailExists oracle name = false
    ∧ batchCheckEmailsExist oracle names name = false
    ∧ name ∈ (filterDups cache dbHas (batchCheckEmailsExist oracle names) names).1 := by
  have hex : existsFromSearch (oracle name) = false := by
    rw [h1]
    rfl
  have hbatch : batchCheckEmailsExist oracle names name = false := by
    rw [batchCheck_eval, if_pos h2, hex]
  refine ⟨?_, hbatch, ?_⟩
  · rw [checkEmailExists, hex]
  · exact filterDupsGo_mem dbHas _ names cache name h2 h3 h4 hbatch

/-- C10 witness: a name whose search call always errors survives the three
layers and reaches the clone phase. -/
theorem claim10_witness :
    checkEmailExists (fun _ => Except.error ("boom")) ("A") = false
    ∧ batchCheckEmailsExist (fun _ => Except.error ("boom")) [("A")] ("A") = false
    ∧ ("A" : String) ∈ (filterDups [] (fun _ => false)
        (batchCheckEmailsExist (fun _ => Except.error ("boom")) [("A")]) [("A")]).1 :=
  claim10 (fun _ => Except.error ("boom")) [("A")] [] (fun _ => false) ("A") ("boom")
    rfl (by decide) (by decide) rfl
